import Mathlib

/-!
Shallow embedding of the capture-and-emission engine of the ccodegen
repository (src/user_section.rs, src/code_writer.rs, src/error.rs,
src/utils.rs), together with theorems settling the specification claims.

Modelling conventions:
* Rust `String` / `&str` is Lean `String`; `str::lines` is `rustLines`
  below (split at newline characters, a carriage return directly before a
  consumed newline is removed, a missing final newline still yields a
  final line).
* The two `HashMap`s and the `HashSet` of `UserSectionManager` are
  association lists / a list of names; only insertion-overwrites and
  lookups are used by the code under scrutiny, which these model exactly.
* The four regexes of `capture_from_string` are fixed patterns; they are
  modelled by direct leftmost-match scanners over the character list of a
  line (`findNamedMarker`, `findPartialMarker`).  The character classes
  are modelled on their ASCII fragment.
* `capture_from_string` mutates `self` while scanning (captures are
  inserted the moment a region closes) and may then return an error; the
  model therefore returns the final manager together with an optional
  error: `none` models `Ok(())`.
* `CodeWriter` writes into an in-memory buffer; I/O never fails in the
  model, so writer operations are pure state transformers.
-/

namespace CCodegen

/-- Regex class `\w` of the marker patterns (ASCII fragment). -/
def isWordChar (c : Char) : Bool := c.isAlphanum || c == '_'

/-- Regex class `\d` of the partial marker patterns. -/
def isDigitChar (c : Char) : Bool := c.isDigit

/-- Regex class `\s` of the partial marker patterns (ASCII fragment). -/
def isSpaceChar (c : Char) : Bool :=
  c == ' ' || c == '\t' || c == '\n' || c == '\r' || c == Char.ofNat 11 || c == Char.ofNat 12

/-- Consume the literal `lit` from the front of `cs`, returning the rest. -/
def dropLit : List Char → List Char → Option (List Char)
  | [], cs => some cs
  | _ :: _, [] => none
  | p :: ps, c :: cs => if c = p then dropLit ps cs else none

/-- Match `lit ++ \w+ ++ " */"` at the start of `cs`; on success return the
capture group (the maximal word-character run after `lit`). -/
def namedMarkerAt (lit : List Char) (cs : List Char) : Option String :=
  match dropLit lit cs with
  | none => none
  | some rest =>
    let tok := rest.takeWhile isWordChar
    if tok.isEmpty then none
    else
      match dropLit [' ', '*', '/'] (rest.dropWhile isWordChar) with
      | some _ => some (String.mk tok)
      | none => none

/-- Leftmost match of the named-marker pattern anywhere in the line. -/
def findNamedMarker (lit : List Char) : List Char → Option String
  | [] => none
  | c :: cs =>
    match namedMarkerAt lit (c :: cs) with
    | some t => some t
    | none => findNamedMarker lit cs

/-- Match `lit ++ \s+ ++ \d+` at the start of `cs`; on success return the
capture group (the maximal digit run), as the raw digit string. -/
def partialMarkerAt (lit : List Char) (cs : List Char) : Option String :=
  match dropLit lit cs with
  | none => none
  | some rest =>
    let ws := rest.takeWhile isSpaceChar
    if ws.isEmpty then none
    else
      let ds := (rest.dropWhile isSpaceChar).takeWhile isDigitChar
      if ds.isEmpty then none else some (String.mk ds)

/-- Leftmost match of the partial-marker pattern anywhere in the line. -/
def findPartialMarker (lit : List Char) : List Char → Option String
  | [] => none
  | c :: cs =>
    match partialMarkerAt lit (c :: cs) with
    | some t => some t
    | none => findPartialMarker lit cs

/-- Regex `/\* USER CODE BEGIN ([\w]+) \*/` applied to one line. -/
def matchBegin (line : String) : Option String :=
  findNamedMarker "/* USER CODE BEGIN ".data line.data

/-- Regex `/\* USER CODE END ([\w]+) \*/` applied to one line. -/
def matchEnd (line : String) : Option String :=
  findNamedMarker "/* USER CODE END ".data line.data

/-- Regex `//!begin\s+(\d+)` applied to one line. -/
def matchPartialBegin (line : String) : Option String :=
  findPartialMarker "//!begin".data line.data

/-- Regex `//!end\s+(\d+)` applied to one line. -/
def matchPartialEnd (line : String) : Option String :=
  findPartialMarker "//!end".data line.data

/-- Value of a decimal digit string, as produced by `str::parse::<u32>`
on the digit captures (claims only involve small ids, so `Nat` is used). -/
def digitsToNat (acc : Nat) : List Char → Nat
  | [] => acc
  | c :: cs => digitsToNat (acc * 10 + (c.toNat - 48)) cs

/-- Finish a line chunk accumulated in reverse when its newline is
consumed: a carriage return directly before the newline is dropped. -/
def chunkOf : List Char → List Char
  | [] => []
  | c :: acc2 => if c = '\r' then acc2.reverse else (c :: acc2).reverse

/-- Rust `str::lines` on the character list: chunks split at each newline;
a carriage return directly before a consumed newline is dropped; a final
chunk without a newline is kept as is.  `acc` holds the current chunk in
reverse. -/
def rustLinesAux (acc : List Char) : List Char → List (List Char)
  | [] => if acc.isEmpty then [] else [acc.reverse]
  | c :: rest =>
    if c = '\n' then chunkOf acc :: rustLinesAux [] rest
    else rustLinesAux (c :: acc) rest

/-- Rust `str::lines`. -/
def rustLines (s : String) : List String :=
  (rustLinesAux [] s.data).map String.mk

/-- Insert-or-overwrite into an association list (`HashMap::insert`). -/
def alInsert {α β : Type} [DecidableEq α] : List (α × β) → α → β → List (α × β)
  | [], k, v => [(k, v)]
  | (k2, v2) :: rest, k, v =>
    if k2 = k then (k, v) :: rest else (k2, v2) :: alInsert rest k v

/-- Lookup in an association list (`HashMap::get`). -/
def alGet {α β : Type} [DecidableEq α] : List (α × β) → α → Option β
  | [], _ => none
  | (k2, v) :: rest, k => if k2 = k then some v else alGet rest k

/-- `user_section.rs`: errors of `error.rs` reachable from the scanner and
the emission functions (the I/O, capture-failed and regex wrappers cannot
occur in the in-memory model). -/
inductive CodeGenError where
  | InvalidSection (msg : String)
  | NestedSection (line : Nat) (sectionName : String)
  | MismatchedSection (line : Nat) (expected : String) (found : String)
  | UnclosedSection (sectionName : String)
  | UnknownSection (name : String)
deriving DecidableEq

/-- The structured line-number field of an error value: `NestedSection`
and `MismatchedSection` have a `line` field in `error.rs`; the other
variants carry only strings. -/
def CodeGenError.lineField : CodeGenError → Option Nat
  | .NestedSection l _ => some l
  | .MismatchedSection l _ _ => some l
  | _ => none

/-- `user_section.rs`: `UserSection`. -/
structure UserSection where
  name : String
  description : Option String
  defaultContent : Option String
  isDynamic : Bool
deriving DecidableEq

/-- `user_section.rs`: `UserSectionManager` (dynamic generators omitted:
`define_section_with_generator` stores plain default content). -/
structure UserSectionManager where
  sections : List (String × UserSection)
  capturedContent : List (String × String)
  partialSections : List (Nat × String)
  writtenSections : List String
deriving DecidableEq

/-- `UserSectionManager::new`. -/
def UserSectionManager.new : UserSectionManager := ⟨[], [], [], []⟩

/-- `UserSectionManager::define_section`. -/
def define_section (m : UserSectionManager) (name : String) : UserSectionManager :=
  { m with sections := alInsert m.sections name ⟨name, none, none, false⟩ }

/-- `UserSectionManager::define_section_with_description`. -/
def define_section_with_description (m : UserSectionManager) (name d : String) :
    UserSectionManager :=
  { m with sections := alInsert m.sections name ⟨name, some d, none, false⟩ }

/-- `UserSectionManager::define_section_with_default`. -/
def define_section_with_default (m : UserSectionManager) (name : String)
    (d : Option String) (defaultContent : String) : UserSectionManager :=
  { m with sections := alInsert m.sections name ⟨name, d, some defaultContent, false⟩ }

/-- `UserSectionManager::get_section_content`: captured content first,
then the registry default. -/
def get_section_content (m : UserSectionManager) (name : String) : Option String :=
  match alGet m.capturedContent name with
  | some s => some s
  | none =>
    match alGet m.sections name with
    | some sec => sec.defaultContent
    | none => none

/-- `UserSectionManager::get_partial_section_content`. -/
def get_partial_section_content (m : UserSectionManager) (number : Nat) : Option String :=
  alGet m.partialSections number

/-- `UserSectionManager::has_partial_section`. -/
def has_partial_section (m : UserSectionManager) (number : Nat) : Bool :=
  (alGet m.partialSections number).isSome

/-- State of the scanner loop in `capture_from_string`: the manager being
mutated, the open named region, the open partial region, the content
buffer, and the number of lines consumed so far (the current line is
`lineNo + 1`, 1-based). -/
structure ScanState where
  m : UserSectionManager
  curSec : Option String
  curPar : Option Nat
  buf : String
  lineNo : Nat
deriving DecidableEq

/-- Outcome of scanning one line or a list of lines: continue with a new
state, or stop with the manager as mutated so far and an error. -/
inductive ScanOut where
  | cont (st : ScanState)
  | fail (m : UserSectionManager) (e : CodeGenError)
deriving DecidableEq

/-- Label of the currently open region used by the named-begin nesting
error: `current_section.unwrap_or_else(|| format!("partial {}", ...))`.
The double-`none` case is unreachable under the guard of its one caller. -/
def openLabel (st : ScanState) : String :=
  match st.curSec with
  | some s => s
  | none =>
    match st.curPar with
    | some n => "partial " ++ Nat.repr n
    | none => "partial "

/-- Message of the orphan partial-end error of `capture_from_string`. -/
def invalidPartialEndMsg (ln num : Nat) : String :=
  "Unexpected partial section end at line " ++ Nat.repr ln ++
    (": no matching begin for \x27" ++ Nat.repr num ++ "\x27")

/-- Message of the orphan named-end error of `capture_from_string`. -/
def invalidEndMsg (ln : Nat) (name : String) : String :=
  "Unexpected user section end at line " ++ Nat.repr ln ++
    (": no matching begin for \x27" ++ name ++ "\x27")

/-- One iteration of the `for line in content.lines()` loop of
`capture_from_string`: the four marker checks in source order, then the
content-accumulation fallthrough. -/
def scanLine (st : ScanState) (line : String) : ScanOut :=
  let ln := st.lineNo + 1
  match matchPartialBegin line with
  | some ds =>
    if st.curSec.isSome || st.curPar.isSome then
      .fail st.m (.NestedSection ln ("partial section " ++ ds))
    else
      .cont { st with lineNo := ln, curPar := some (digitsToNat 0 ds.data), buf := "" }
  | none =>
  match matchBegin line with
  | some nm =>
    if st.curSec.isSome || st.curPar.isSome then
      .fail st.m (.NestedSection ln (openLabel st))
    else
      .cont { st with lineNo := ln, curSec := some nm, buf := "" }
  | none =>
  match matchPartialEnd line with
  | some ds =>
    let num := digitsToNat 0 ds.data
    match st.curPar with
    | some cur =>
      if cur ≠ num then
        .fail st.m (.MismatchedSection ln (Nat.repr cur) (Nat.repr num))
      else
        .cont { st with
                lineNo := ln,
                curPar := none,
                m := { st.m with partialSections := alInsert st.m.partialSections cur st.buf } }
    | none => .fail st.m (.InvalidSection (invalidPartialEndMsg ln num))
  | none =>
  match matchEnd line with
  | some nm =>
    match st.curSec with
    | some cur =>
      if cur ≠ nm then
        .fail st.m (.MismatchedSection ln cur nm)
      else
        .cont { st with
                lineNo := ln,
                curSec := none,
                m := { st.m with capturedContent := alInsert st.m.capturedContent cur st.buf } }
    | none => .fail st.m (.InvalidSection (invalidEndMsg ln nm))
  | none =>
    if st.curSec.isSome || st.curPar.isSome then
      .cont { st with lineNo := ln, buf := st.buf ++ line ++ "\n" }
    else
      .cont { st with lineNo := ln }

/-- The scanner loop over a list of lines, stopping at the first error. -/
def scanLines : ScanState → List String → ScanOut
  | st, [] => .cont st
  | st, l :: ls =>
    match scanLine st l with
    | .cont st2 => scanLines st2 ls
    | .fail m e => .fail m e

/-- The end-of-input check of `capture_from_string`: an open region fails
with `UnclosedSection`. -/
def scanFinish (st : ScanState) : UserSectionManager × Option CodeGenError :=
  match st.curSec with
  | some s => (st.m, some (.UnclosedSection s))
  | none =>
    match st.curPar with
    | some n => (st.m, some (.UnclosedSection ("partial section " ++ Nat.repr n)))
    | none => (st.m, none)

/-- `capture_from_string` on the already-split line list: returns the
manager as mutated by the scan together with `none` for `Ok(())` or the
first error. -/
def capture_from_lines (m : UserSectionManager) (ls : List String) :
    UserSectionManager × Option CodeGenError :=
  match scanLines ⟨m, none, none, "", 0⟩ ls with
  | .fail m2 e => (m2, some e)
  | .cont st => scanFinish st

/-- `UserSectionManager::capture_from_string` (the `path` argument is
unused by the Rust function beyond error context). -/
def capture_from_string (m : UserSectionManager) (content : String) :
    UserSectionManager × Option CodeGenError :=
  capture_from_lines m (rustLines content)

/-- `utils.rs`: `repeat_str` (`str::repeat`). -/
def repeat_str (s : String) : Nat → String
  | 0 => ""
  | n + 1 => s ++ repeat_str s n

/-- `code_writer.rs`: `CodeWriter` over an in-memory output buffer. -/
structure CodeWriter where
  out : String
  indentLevel : Nat
  indentSize : Nat
  withNewline : Bool
deriving DecidableEq

/-- `CodeWriter::new`. -/
def CodeWriter.new : CodeWriter := ⟨"", 0, 4, true⟩

/-- Rust `content.ends_with('\n')`. -/
def endsWithNl (s : String) : Bool :=
  match s.data.getLast? with
  | some c => c == '\n'
  | none => false

/-- The line loop of `CodeWriter::write`: a newline before every line but
the first; indentation and the line itself only when the line is
nonempty. -/
def renderLines (indent : String) : List String → String
  | [] => ""
  | [l] => if l.data.isEmpty then "" else indent ++ l
  | l :: l2 :: ls =>
    (if l.data.isEmpty then "" else indent ++ l) ++ "\n" ++ renderLines indent (l2 :: ls)

/-- `CodeWriter::write`: empty content emits one newline in `with_newline`
mode; otherwise the lines of the content are written with indentation and
a final newline is appended only in `with_newline` mode when the content
does not already end with one (so a trailing newline of the content is
never re-emitted: `str::lines` drops it and the final check skips it). -/
def CodeWriter.write (w : CodeWriter) (content : String) : CodeWriter :=
  if content.data.isEmpty then
    if w.withNewline then { w with out := w.out ++ "\n" } else w
  else
    let indent := repeat_str " " (w.indentLevel * w.indentSize)
    let w2 := { w with out := w.out ++ renderLines indent (rustLines content) }
    if w.withNewline && !endsWithNl content then { w2 with out := w2.out ++ "\n" } else w2

/-- `CodeWriter::writeln`: `write` with `with_newline` forced on and then
restored. -/
def CodeWriter.writeln (w : CodeWriter) (content : String) : CodeWriter :=
  let w2 := CodeWriter.write { w with withNewline := true } content
  { w2 with withNewline := w.withNewline }

/-- `CodeWriter::newline`. -/
def CodeWriter.newline (w : CodeWriter) : CodeWriter :=
  { w with out := w.out ++ "\n" }

/-- `CodeWriter::write_separator` (the width argument is unused). -/
def CodeWriter.write_separator (w : CodeWriter) (title : String) (_width : Nat) : CodeWriter :=
  w.writeln ("/* " ++ title ++ " */")

/-- `UserSectionManager::write_section`.  Source order: unknown-section
check, description separator, written-tracker check, begin marker,
resolved content (with a newline appended when the content does not end
with one), end marker, blank line.  The manager is returned because the
tracker is updated through the `RefCell`. -/
def write_section (m : UserSectionManager) (w : CodeWriter) (name : String) :
    Except CodeGenError (UserSectionManager × CodeWriter) :=
  match alGet m.sections name with
  | none => .error (.UnknownSection name)
  | some sec =>
    let w := match sec.description with
      | some d => w.write_separator d 80
      | none => w
    if m.writtenSections.contains name then
      .ok (m, w)
    else
      let m2 := { m with writtenSections := name :: m.writtenSections }
      let w := w.writeln ("/* USER CODE BEGIN " ++ name ++ " */")
      let content := (get_section_content m2 name).getD ""
      let w := if content.data.isEmpty then w
        else
          let w := w.write content
          if !endsWithNl content then w.newline else w
      let w := w.writeln ("/* USER CODE END " ++ name ++ " */")
      .ok (m2, w.newline)

/-- `UserSectionManager::write_section_without_description`: like
`write_section` but with no description separator and, notably, no
written-tracker consultation or update. -/
def write_section_without_description (m : UserSectionManager) (w : CodeWriter)
    (name : String) : Except CodeGenError (UserSectionManager × CodeWriter) :=
  match alGet m.sections name with
  | none => .error (.UnknownSection name)
  | some _ =>
    let w := w.writeln ("/* USER CODE BEGIN " ++ name ++ " */")
    let content := (get_section_content m name).getD ""
    let w := if content.data.isEmpty then w
      else
        let w := w.write content
        if !endsWithNl content then w.newline else w
    let w := w.writeln ("/* USER CODE END " ++ name ++ " */")
    .ok (m, w.newline)

/-- `UserSectionManager::write_partial_section`. -/
def write_partial_section (m : UserSectionManager) (w : CodeWriter) (number : Nat)
    (defaultContent : Option String) : CodeWriter :=
  let w := w.writeln ("//!begin " ++ Nat.repr number)
  let w := match alGet m.partialSections number with
    | some content => w.write content
    | none =>
      match defaultContent with
      | some d =>
        let w := w.write d
        if !endsWithNl d then w.newline else w
      | none => w
  w.writeln ("//!end " ++ Nat.repr number)

/-- The begin marker line emitted and recognized for a named region. -/
def beginMarker (name : String) : String := "/* USER CODE BEGIN " ++ name ++ " */"

/-- The end marker line emitted and recognized for a named region. -/
def endMarker (name : String) : String := "/* USER CODE END " ++ name ++ " */"

/-- Region content as captured by the scanner from the given content
lines: every line newline-terminated. -/
def joinNl : List String → String
  | [] => ""
  | l :: ls => l ++ "\n" ++ joinNl ls

/-- The same lines as emitted by the `CodeWriter` line loop at zero
indentation: newline-separated, with no trailing newline. -/
def sepNl : List String → String
  | [] => ""
  | [l] => l
  | l :: l2 :: ls => l ++ "\n" ++ sepNl (l2 :: ls)

/-- A line on which none of the four marker regexes matches: treated as
plain content by the scanner. -/
def noMarkerLine (l : String) : Prop :=
  matchPartialBegin l = none ∧ matchBegin l = none ∧
    matchPartialEnd l = none ∧ matchEnd l = none

/-- Deciding `noMarkerLine` by evaluating the four matchers. -/
instance noMarkerLineDec (l : String) : Decidable (noMarkerLine l) := by
  unfold noMarkerLine
  infer_instance

end CCodegen

namespace CCodegen

/-- The registry of the concrete `Includes` scenario: section `Includes`
with no description and default content `"#include <stdio.h>\n"`. -/
def includesManager : UserSectionManager :=
  define_section_with_default UserSectionManager.new "Includes" none "#include <stdio.h>\n"

set_option maxRecDepth 4000

deriving instance DecidableEq for Except

/-- The manager carried by a scan outcome: the state manager on
continuation, the mutated-so-far manager on failure. -/
def scanOutM : ScanOut → UserSectionManager
  | .cont st => st.m
  | .fail m _ => m

/-- Store-key preservation between two managers: every key present in the
captured-content map and in the partial-section map of the first is still
present in the second. -/
def keysPreserved (m1 m2 : UserSectionManager) : Prop :=
  (∀ k : String, (alGet m1.capturedContent k).isSome = true →
      (alGet m2.capturedContent k).isSome = true)
  ∧ (∀ n : Nat, (alGet m1.partialSections n).isSome = true →
      (alGet m2.partialSections n).isSome = true)

/-- C9: scanning `//!begin 1\nint counter = 0;\n//!end 1\n` succeeds, after
which `get_partial_section_content 1` returns `"int counter = 0;\n"` and
`has_partial_section 2` returns `false`. -/
theorem c9_partial_capture_scenario :
    capture_from_string UserSectionManager.new "//!begin 1\nint counter = 0;\n//!end 1\n"
      = (⟨[], [], [(1, "int counter = 0;\n")], []⟩, none)
    ∧ get_partial_section_content ⟨[], [], [(1, "int counter = 0;\n")], []⟩ 1
        = some "int counter = 0;\n"
    ∧ has_partial_section ⟨[], [], [(1, "int counter = 0;\n")], []⟩ 2 = false := by
  decide

/-- C3: with the `Includes` registry and no capture, `write_section`
produces `/* USER CODE BEGIN Includes */\n#include <stdio.h>/* USER CODE
END Includes */\n\n` — the trailing newline of the default content is
dropped by `CodeWriter::write`, so the end marker does NOT start on its
own line, contradicting the claimed bytes (which are also the bytes
expected by the repository test `test_user_section_manager`). -/
theorem c3_includes_emission_bytes :
    (∃ m2, write_section includesManager CodeWriter.new "Includes"
        = .ok (m2, ⟨"/* USER CODE BEGIN Includes */\n#include <stdio.h>/* USER CODE END Includes */\n\n", 0, 4, true⟩))
    ∧ ("/* USER CODE BEGIN Includes */\n#include <stdio.h>/* USER CODE END Includes */\n\n" : String)
        ≠ "/* USER CODE BEGIN Includes */\n#include <stdio.h>\n/* USER CODE END Includes */\n\n" := by
  refine ⟨⟨{ includesManager with writtenSections := ["Includes"] }, ?_⟩, by decide⟩
  decide

/-- C2: round-trip failure at the `Includes` registry.  The first pass
(no capture) emits `F1`; scanning `F1` captures empty content for
`Includes` (because the glued `...stdio.h>/* USER CODE END Includes */`
line is consumed as the end marker); the second pass then emits different
bytes.  Everything is evaluated concretely. -/
theorem c2_round_trip_failure :
    ∃ m2 w1 m3 m4 w2,
      write_section includesManager CodeWriter.new "Includes" = .ok (m2, w1)
      ∧ capture_from_string includesManager w1.out = (m3, none)
      ∧ write_section m3 CodeWriter.new "Includes" = .ok (m4, w2)
      ∧ w2.out ≠ w1.out := by
  refine ⟨{ includesManager with writtenSections := ["Includes"] },
    ⟨"/* USER CODE BEGIN Includes */\n#include <stdio.h>/* USER CODE END Includes */\n\n", 0, 4, true⟩,
    { includesManager with capturedContent := [("Includes", "")] },
    { includesManager with capturedContent := [("Includes", "")], writtenSections := ["Includes"] },
    ⟨"/* USER CODE BEGIN Includes */\n/* USER CODE END Includes */\n\n", 0, 4, true⟩,
    ?_, ?_, ?_, by decide⟩
  · decide
  · decide
  · decide

/-- C1 counterexample: a well-formed named region whose content line is a
marker of the other (partial) kind.  The claim predicts a successful scan;
the scanner instead fails with `NestedSection` at line 2, because every
marker pattern is recognized regardless of which region kind is open. -/
theorem c1_counterexample_other_kind_marker :
    capture_from_string UserSectionManager.new
        "/* USER CODE BEGIN A */\n//!begin 1\n/* USER CODE END A */\n"
      = (UserSectionManager.new, some (.NestedSection 2 "partial section 1")) := by
  decide

/-- C4 counterexample: section `X` has a description.  The second
`write_section` call in the same pass is not a no-op: it re-emits the
description separator line `/* d */` (the separator is written before the
written-tracker check), so it does write output. -/
theorem c4_counterexample_description_reemitted :
    ∃ m1 w1 m2 w2,
      write_section (define_section_with_description UserSectionManager.new "X" "d")
          CodeWriter.new "X" = .ok (m1, w1)
      ∧ write_section m1 w1 "X" = .ok (m2, w2)
      ∧ w2.out ≠ w1.out
      ∧ w2.out = w1.out ++ "/* d */\n" := by
  refine ⟨{ define_section_with_description UserSectionManager.new "X" "d" with
              writtenSections := ["X"] },
    ⟨"/* d */\n/* USER CODE BEGIN X */\n/* USER CODE END X */\n\n", 0, 4, true⟩,
    { define_section_with_description UserSectionManager.new "X" "d" with
        writtenSections := ["X"] },
    ⟨"/* d */\n/* USER CODE BEGIN X */\n/* USER CODE END X */\n\n/* d */\n", 0, 4, true⟩,
    ?_, ?_, by decide, by decide⟩
  · decide
  · decide

/-- C5 counterexample: region `A` closes at line 3, then an orphan end
marker for `B` at line 4 makes the scan fail — yet the store now holds
the capture for `A`, so an erroring scan does change the content store. -/
theorem c5_counterexample_store_changed :
    capture_from_string UserSectionManager.new
        "/* USER CODE BEGIN A */\nx\n/* USER CODE END A */\n/* USER CODE END B */\n"
      = ({ UserSectionManager.new with capturedContent := [("A", "x\n")] },
         some (.InvalidSection (invalidEndMsg 4 "B")))
    ∧ [("A", "x\n")] ≠ UserSectionManager.new.capturedContent := by
  decide

/-- C6 counterexample: a line that contains the begin marker among other
text.  The claim predicts it is ordinary content (so scanning this
one-line file would succeed with nothing captured); the unanchored
pattern match instead opens region `A` and the scan fails with
`UnclosedSection "A"`. -/
theorem c6_counterexample_marker_amid_text :
    capture_from_string UserSectionManager.new "int x; /* USER CODE BEGIN A */ tail\n"
      = (UserSectionManager.new, some (.UnclosedSection "A")) := by
  decide

/-- C7 counterexample: nesting `//!begin 2` inside partial region 1 fails
with `NestedSection` at line 2, but the reported identity is `partial
section 2` — the NEW begin marker — not the currently open region
(partial 1) under either label convention the code uses. -/
theorem c7_counterexample_reports_new_id :
    capture_from_string UserSectionManager.new "//!begin 1\n//!begin 2\n//!end 2\n//!end 1\n"
      = (UserSectionManager.new, some (.NestedSection 2 "partial section 2"))
    ∧ ("partial section 2" : String) ≠ "partial section 1"
    ∧ ("partial section 2" : String) ≠ "partial 1" := by
  decide

/-- C8 counterexample: an unclosed partial region fails with
`UnclosedSection "partial section 1"`, an error variant that carries no
structured line-number field. -/
theorem c8_counterexample_unclosed_has_no_line :
    (capture_from_string UserSectionManager.new "//!begin 1\n").2
        = some (.UnclosedSection "partial section 1")
    ∧ (CodeGenError.UnclosedSection "partial section 1").lineField = none := by
  decide

end CCodegen

namespace CCodegen

/-- The empty string is a left identity for append. -/
theorem strEmptyAppend (s : String) : "" ++ s = s := by
  cases s
  rfl

/-- Rebuilding a string from its character list is the identity. -/
theorem strMkData (s : String) : String.mk s.data = s := by
  cases s
  rfl

/-- Scanning a concatenation of line lists runs the first list and, on
continuation, the second. -/
theorem scanLines_append (ls1 ls2 : List String) (st : ScanState) :
    scanLines st (ls1 ++ ls2)
      = match scanLines st ls1 with
        | .cont st2 => scanLines st2 ls2
        | .fail m e => .fail m e := by
  induction ls1 generalizing st with
  | nil => simp [scanLines]
  | cons l ls ih =>
    simp only [List.cons_append, scanLines]
    cases scanLine st l with
    | cont st2 => exact ih st2
    | fail m e => rfl

/-- A line matching no marker pattern is appended to the buffer while a
region is open. -/
theorem scanLine_content (st : ScanState) (l : String) (h : noMarkerLine l)
    (hopen : (st.curSec.isSome || st.curPar.isSome) = true) :
    scanLine st l = .cont { st with lineNo := st.lineNo + 1, buf := st.buf ++ l ++ "\n" } := by
  obtain ⟨h1, h2, h3, h4⟩ := h
  simp [scanLine, h1, h2, h3, h4, hopen]

/-- A begin marker line from the idle state opens the named region and
clears the buffer. -/
theorem scanLine_beginNamed (st : ScanState) (l nm : String)
    (h1 : matchPartialBegin l = none) (h2 : matchBegin l = some nm)
    (hs : st.curSec = none) (hp : st.curPar = none) :
    scanLine st l = .cont { st with lineNo := st.lineNo + 1, curSec := some nm, buf := "" } := by
  simp [scanLine, h1, h2, hs, hp]

/-- An end marker line matching the open named region commits the buffer
into the captured-content store. -/
theorem scanLine_endNamed (st : ScanState) (l nm : String)
    (h1 : matchPartialBegin l = none) (h2 : matchBegin l = none)
    (h3 : matchPartialEnd l = none) (h4 : matchEnd l = some nm)
    (hs : st.curSec = some nm) :
    scanLine st l = .cont { st with
      lineNo := st.lineNo + 1,
      curSec := none,
      m := { st.m with capturedContent := alInsert st.m.capturedContent nm st.buf } } := by
  simp [scanLine, h1, h2, h3, h4, hs]

/-- Marker-free lines are accumulated verbatim, newline-terminated, while
a region is open. -/
theorem scanLines_content (ls : List String) (h : ∀ l ∈ ls, noMarkerLine l)
    (st : ScanState) (hopen : (st.curSec.isSome || st.curPar.isSome) = true) :
    scanLines st ls
      = .cont { st with lineNo := st.lineNo + ls.length, buf := st.buf ++ joinNl ls } := by
  induction ls generalizing st with
  | nil => simp [scanLines, joinNl, String.append_empty]
  | cons l ls ih =>
    have hl := h l (by simp)
    have hrest : ∀ x ∈ ls, noMarkerLine x := fun x hx => h x (by simp [hx])
    simp only [scanLines, scanLine_content st l hl hopen]
    rw [ih hrest _ (by simpa using hopen)]
    simp [joinNl, String.append_assoc, Nat.add_assoc, Nat.add_comm 1 ls.length]

/-- Scanning a single well-formed named region whose content lines match
no marker pattern succeeds and commits exactly the newline-terminated
content lines under the region name.  The recognizer hypotheses state
that the two marker lines are recognized as this region's markers. -/
theorem capture_named_region (m : UserSectionManager) (nm : String) (ls : List String)
    (hb1 : matchPartialBegin (beginMarker nm) = none)
    (hb2 : matchBegin (beginMarker nm) = some nm)
    (he1 : matchPartialBegin (endMarker nm) = none)
    (he2 : matchBegin (endMarker nm) = none)
    (he3 : matchPartialEnd (endMarker nm) = none)
    (he4 : matchEnd (endMarker nm) = some nm)
    (hls : ∀ l ∈ ls, noMarkerLine l) :
    capture_from_lines m (beginMarker nm :: ls ++ [endMarker nm])
      = ({ m with capturedContent := alInsert m.capturedContent nm (joinNl ls) }, none) := by
  unfold capture_from_lines
  simp only [scanLines, scanLine_beginNamed ⟨m, none, none, "", 0⟩ _ nm hb1 hb2 rfl rfl]
  rw [List.append_eq, scanLines_append]
  rw [scanLines_content ls hls _ (by simp)]
  simp only [scanLines, Nat.zero_add, strEmptyAppend]
  rw [scanLine_endNamed ⟨m, some nm, none, joinNl ls, 1 + ls.length⟩
        (endMarker nm) nm he1 he2 he3 he4 rfl]
  simp [scanFinish]

end CCodegen

namespace CCodegen

/-- Finishing a chunk that contains no carriage return restores the chunk. -/
theorem chunkOf_reverse (l : List Char) (h : '\r' ∉ l) : chunkOf l.reverse = l := by
  cases hr : l.reverse with
  | nil =>
    have : l = [] := by simpa using congrArg List.reverse hr.symm
    subst this
    rfl
  | cons c cs =>
    have hc : c ≠ '\r' := by
      intro he
      subst he
      exact h (by simpa using (hr ▸ List.mem_cons_self '\r' cs : '\r' ∈ l.reverse))
    simp only [chunkOf, if_neg hc]
    rw [← hr, List.reverse_reverse]

/-- The scanner of `rustLines` cuts a chunk at the first newline. -/
theorem rla_chunk (pre : List Char) (h : '\n' ∉ pre) :
    ∀ (acc tail : List Char),
      rustLinesAux acc (pre ++ '\n' :: tail)
        = chunkOf (pre.reverse ++ acc) :: rustLinesAux [] tail := by
  induction pre with
  | nil => intro acc tail; simp [rustLinesAux]
  | cons c pre ih =>
    intro acc tail
    have hc : c ≠ '\n' := fun he => h (he ▸ List.mem_cons_self c pre)
    have hpre : '\n' ∉ pre := fun he => h (List.mem_cons_of_mem c he)
    simp only [List.cons_append, rustLinesAux, if_neg hc]
    rw [List.append_eq, ih hpre (c :: acc) tail, List.reverse_cons, List.append_assoc]
    rfl

/-- A newline-free nonempty tail is one final chunk. -/
theorem rla_nonl (cs : List Char) (h : '\n' ∉ cs) :
    ∀ acc : List Char, cs ≠ [] ∨ acc ≠ [] →
      rustLinesAux acc cs = [acc.reverse ++ cs] := by
  induction cs with
  | nil =>
    intro acc hor
    have hacc : acc ≠ [] := hor.resolve_left (fun hn => hn rfl)
    have hie : acc.isEmpty = false := by
      cases acc with
      | nil => exact absurd rfl hacc
      | cons a l => rfl
    simp [rustLinesAux, hie]
  | cons c cs ih =>
    intro acc _
    have hc : c ≠ '\n' := fun he => h (he ▸ List.mem_cons_self c cs)
    have hcs : '\n' ∉ cs := fun he => h (List.mem_cons_of_mem c he)
    simp only [rustLinesAux, if_neg hc]
    rw [ih hcs (c :: acc) (Or.inr (by simp))]
    simp [List.reverse_cons, List.append_assoc]

/-- A newline-free nonempty string is a single line. -/
theorem rustLines_single (s : String) (h : '\n' ∉ s.data) (h2 : s.data ≠ []) :
    rustLines s = [s] := by
  unfold rustLines
  rw [rla_nonl s.data h [] (Or.inl h2)]
  simp [strMkData]

/-- Character-list view of `joinNl` on a cons cell. -/
theorem joinNl_data (l : String) (ls : List String) :
    (joinNl (l :: ls)).data = l.data ++ '\n' :: (joinNl ls).data := by
  show ((l ++ "\n") ++ joinNl ls).data = _
  simp [String.data_append, List.append_assoc]

/-- Captured content splits back into its lines when the lines are free of
newlines and carriage returns. -/
theorem rustLines_joinNl (ls : List String)
    (h : ∀ l ∈ ls, '\n' ∉ l.data ∧ '\r' ∉ l.data) :
    rustLines (joinNl ls) = ls := by
  induction ls with
  | nil => rfl
  | cons l ls ih =>
    have hl := h l (by simp)
    have hrest : ∀ x ∈ ls, '\n' ∉ x.data ∧ '\r' ∉ x.data := fun x hx => h x (by simp [hx])
    unfold rustLines
    rw [joinNl_data, rla_chunk l.data hl.1 [] (joinNl ls).data]
    rw [List.append_nil, chunkOf_reverse l.data hl.2]
    have ihu : (rustLinesAux [] (joinNl ls).data).map String.mk = ls := ih hrest
    simp [strMkData, ihu]

/-- Nonempty captured content ends with a newline. -/
theorem joinNl_getLast (ls : List String) (l : String) :
    ((joinNl (l :: ls)).data).getLast? = some '\n' := by
  rw [joinNl_data]
  cases ls with
  | nil =>
    show (l.data ++ '\n' :: ([] : List Char)).getLast? = some '\n'
    exact List.getLast?_concat l.data
  | cons l2 ls2 =>
    have : ('\n' :: (joinNl (l2 :: ls2)).data) = ['\n'] ++ (joinNl (l2 :: ls2)).data := rfl
    rw [this, List.getLast?_append, List.getLast?_append, joinNl_getLast ls2 l2]
    rfl

/-- Nonempty captured content is a nonempty string. -/
theorem joinNl_ne_nil (ls : List String) (l : String) : (joinNl (l :: ls)).data ≠ [] := by
  rw [joinNl_data]
  simp

/-- `endsWithNl` holds on nonempty captured content. -/
theorem endsWithNl_joinNl (ls : List String) (l : String) :
    endsWithNl (joinNl (l :: ls)) = true := by
  unfold endsWithNl
  rw [joinNl_getLast]
  rfl

/-- The empty-line guard of the writer loop is the identity at zero
indentation. -/
theorem ifEmptyAppend (l : String) : (if l.data.isEmpty then "" else "" ++ l) = l := by
  cases l with
  | mk d =>
    cases d with
    | nil => rfl
    | cons c cs =>
      rw [if_neg (by simp)]
      exact strEmptyAppend _

/-- The writer loop at zero indentation interleaves the lines with
newlines. -/
theorem renderLines_zero (ls : List String) : renderLines "" ls = sepNl ls := by
  induction ls with
  | nil => rfl
  | cons l tail ih =>
    cases tail with
    | nil => simpa only [renderLines, sepNl] using ifEmptyAppend l
    | cons l2 rest =>
      simp only [renderLines, sepNl] at ih ⊢
      rw [ih, ifEmptyAppend]

/-- Captured content is its emitted line block plus one final newline. -/
theorem joinNl_eq_sepNl (ls : List String) (l : String) :
    joinNl (l :: ls) = sepNl (l :: ls) ++ "\n" := by
  induction ls generalizing l with
  | nil =>
    show (l ++ "\n") ++ joinNl [] = sepNl [l] ++ "\n"
    simp [joinNl, sepNl, String.append_empty]
  | cons l2 ls ih =>
    show (l ++ "\n") ++ joinNl (l2 :: ls) = sepNl (l :: l2 :: ls) ++ "\n"
    rw [ih l2]
    simp [sepNl, String.append_assoc]

end CCodegen

namespace CCodegen

/-- A list with a known last element is nonempty. -/
theorem ne_nil_of_getLast (l : List Char) (c : Char) (h : l.getLast? = some c) :
    l ≠ [] := by
  intro he
  subst he
  simp at h

/-- The last character of an appended string comes from a nonempty
suffix. -/
theorem marker_last (a suf : String) (c : Char) (hc : suf.data.getLast? = some c) :
    ((a ++ suf)).data.getLast? = some c := by
  rw [String.data_append, List.getLast?_append, hc]
  rfl

/-- Appending a word-character name between newline-free literals yields a
newline-free line. -/
theorem marker_noNl (pre suf nm : String)
    (hpre : '\n' ∉ pre.data) (hsuf : '\n' ∉ suf.data)
    (hword : ∀ c ∈ nm.data, isWordChar c = true) :
    '\n' ∉ ((pre ++ nm) ++ suf).data := by
  intro hmem
  simp only [String.data_append, List.mem_append] at hmem
  rcases hmem with (h | h) | h
  · exact hpre h
  · exact absurd (hword _ h) (by decide)
  · exact hsuf h

/-- A line ending in `*/` does not end with a newline. -/
theorem endsWithNl_starSlash (a : String) : endsWithNl (a ++ " */") = false := by
  unfold endsWithNl
  rw [marker_last a " */" '/' (by decide)]
  rfl

/-- `writeln` of a single newline-free nonempty line at zero indentation
appends the line plus a newline. -/
theorem writeln_single (w : CodeWriter) (s : String)
    (h1 : '\n' ∉ s.data) (h2 : s.data ≠ []) (h3 : endsWithNl s = false)
    (hw : w.indentLevel = 0) :
    w.writeln s = { w with out := w.out ++ s ++ "\n" } := by
  have hie : s.data.isEmpty = false := by
    cases hd : s.data with
    | nil => exact absurd hd h2
    | cons a l => rfl
  simp [CodeWriter.writeln, CodeWriter.write, hie, h3, hw, rustLines_single s h1 h2,
    renderLines_zero, sepNl, repeat_str]

/-- `write` of nonempty captured content at zero indentation appends the
content minus its final newline: the writer loop emits the lines
newline-separated and the final-newline branch is skipped because the
content already ends with a newline. -/
theorem write_joinNl (w : CodeWriter) (l : String) (ls : List String)
    (hclean : ∀ x ∈ l :: ls, '\n' ∉ x.data ∧ '\r' ∉ x.data)
    (hw : w.indentLevel = 0) :
    w.write (joinNl (l :: ls)) = { w with out := w.out ++ sepNl (l :: ls) } := by
  have hie : (joinNl (l :: ls)).data.isEmpty = false := by
    cases hd : (joinNl (l :: ls)).data with
    | nil => exact absurd hd (joinNl_ne_nil ls l)
    | cons a t => rfl
  simp [CodeWriter.write, hie, endsWithNl_joinNl, hw, rustLines_joinNl _ hclean,
    renderLines_zero, repeat_str]

/-- A successful named-marker match captures a nonempty word-character
token. -/
theorem findNamed_word (lit : List Char) (cs : List Char) (t : String)
    (h : findNamedMarker lit cs = some t) :
    (∀ c ∈ t.data, isWordChar c = true) ∧ t.data ≠ [] := by
  induction cs with
  | nil => simp [findNamedMarker] at h
  | cons c cs ih =>
    rw [findNamedMarker] at h
    cases hm : namedMarkerAt lit (c :: cs) with
    | none =>
      rw [hm] at h
      exact ih h
    | some t2 =>
      rw [hm] at h
      injection h with h
      subst h
      unfold namedMarkerAt at hm
      cases hd : dropLit lit (c :: cs) with
      | none =>
        rw [hd] at hm
        exact absurd hm (by simp)
      | some rest =>
        rw [hd] at hm
        simp only at hm
        by_cases hie : (rest.takeWhile isWordChar).isEmpty
        · rw [if_pos hie] at hm
          exact absurd hm (by simp)
        · rw [if_neg hie] at hm
          cases hd2 : dropLit [' ', '*', '/'] (rest.dropWhile isWordChar) with
          | none =>
            rw [hd2] at hm
            exact absurd hm (by simp)
          | some r2 =>
            rw [hd2] at hm
            injection hm with hm
            subst hm
            refine ⟨fun ch hch => List.mem_takeWhile_imp hch, fun he => hie ?_⟩
            have : rest.takeWhile isWordChar = [] := he
            simp [this]

end CCodegen

namespace CCodegen

/-- Emission of a named section with no description, not yet tracked, at
zero indentation, whose resolved content is the captured line block
`joinNl ls`: the output is the begin marker line, then the content lines
newline-separated but with the final newline dropped (the end marker
continues on the last content line), then the end marker line and a blank
line; the section is recorded in the written tracker. -/
theorem write_section_emits (m : UserSectionManager) (nm : String) (sec : UserSection)
    (ls : List String) (w : CodeWriter)
    (hsec : alGet m.sections nm = some sec) (hdesc : sec.description = none)
    (hwr : m.writtenSections.contains nm = false)
    (hcap : alGet m.capturedContent nm = some (joinNl ls))
    (hclean : ∀ l ∈ ls, '\n' ∉ l.data ∧ '\r' ∉ l.data)
    (hword : ∀ c ∈ nm.data, isWordChar c = true)
    (hw : w.indentLevel = 0) :
    write_section m w nm
      = .ok ({ m with writtenSections := nm :: m.writtenSections },
        { w with out := w.out ++ (beginMarker nm ++ "\n") ++ sepNl ls
            ++ (endMarker nm ++ "\n") ++ "\n" }) := by
  have hbm1 : '\n' ∉ (beginMarker nm).data := by
    unfold beginMarker
    exact marker_noNl "/* USER CODE BEGIN " " */" nm (by decide) (by decide) hword
  have hbm2 : (beginMarker nm).data ≠ [] := by
    unfold beginMarker
    exact ne_nil_of_getLast _ '/' (marker_last _ " */" '/' (by decide))
  have hbm3 : endsWithNl (beginMarker nm) = false := endsWithNl_starSlash _
  have hem1 : '\n' ∉ (endMarker nm).data := by
    unfold endMarker
    exact marker_noNl "/* USER CODE END " " */" nm (by decide) (by decide) hword
  have hem2 : (endMarker nm).data ≠ [] := by
    unfold endMarker
    exact ne_nil_of_getLast _ '/' (marker_last _ " */" '/' (by decide))
  have hem3 : endsWithNl (endMarker nm) = false := endsWithNl_starSlash _
  unfold write_section
  rw [hsec]
  simp only [hdesc, hwr, Bool.false_eq_true, if_false, get_section_content, hcap,
    Option.getD_some]
  rw [show ("/* USER CODE BEGIN " ++ nm ++ " */" : String) = beginMarker nm from rfl]
  rw [show ("/* USER CODE END " ++ nm ++ " */" : String) = endMarker nm from rfl]
  cases ls with
  | nil =>
    rw [if_pos (by decide : (joinNl ([] : List String)).data.isEmpty = true)]
    rw [writeln_single w (beginMarker nm) hbm1 hbm2 hbm3 hw]
    rw [writeln_single _ (endMarker nm) hem1 hem2 hem3 (by simp [hw])]
    simp [CodeWriter.newline, sepNl, String.append_assoc, String.append_empty]
  | cons l ls2 =>
    have hne : (joinNl (l :: ls2)).data.isEmpty = false := by
      cases hd : (joinNl (l :: ls2)).data with
      | nil => exact absurd hd (joinNl_ne_nil ls2 l)
      | cons a t => rfl
    rw [if_neg (by simp [hne])]
    rw [if_neg (by simp [endsWithNl_joinNl])]
    rw [writeln_single w (beginMarker nm) hbm1 hbm2 hbm3 hw]
    rw [write_joinNl _ l ls2 hclean (by simp [hw])]
    rw [writeln_single _ (endMarker nm) hem1 hem2 hem3 (by simp [hw])]
    simp [CodeWriter.newline, String.append_assoc]

end CCodegen

namespace CCodegen

/-- C1 (amended): for a named region whose content lines match no marker
pattern of either kind (and are free of newline and carriage-return
characters), scanning succeeds and captures exactly the newline-terminated
content `C = joinNl ls`; emitting the region then reproduces the content
between the markers except that the writer drops the final newline of `C`:
the bytes between the marker lines are `sepNl ls`, with
`C = sepNl ls ++ "\n"` whenever `C` is nonempty, so the end marker
continues on the last content line instead of starting on its own line. -/
theorem c1_edit_preservation (nm : String) (ls : List String)
    (hb1 : matchPartialBegin (beginMarker nm) = none)
    (hb2 : matchBegin (beginMarker nm) = some nm)
    (he1 : matchPartialBegin (endMarker nm) = none)
    (he2 : matchBegin (endMarker nm) = none)
    (he3 : matchPartialEnd (endMarker nm) = none)
    (he4 : matchEnd (endMarker nm) = some nm)
    (hls : ∀ l ∈ ls, noMarkerLine l)
    (hclean : ∀ l ∈ ls, '\n' ∉ l.data ∧ '\r' ∉ l.data) :
    capture_from_lines (define_section UserSectionManager.new nm)
        (beginMarker nm :: ls ++ [endMarker nm])
      = ({ define_section UserSectionManager.new nm with
             capturedContent := [(nm, joinNl ls)] }, none)
    ∧ write_section { define_section UserSectionManager.new nm with
          capturedContent := [(nm, joinNl ls)] } CodeWriter.new nm
        = .ok ({ define_section UserSectionManager.new nm with
              capturedContent := [(nm, joinNl ls)], writtenSections := [nm] },
            { CodeWriter.new with
              out := (beginMarker nm ++ "\n") ++ sepNl ls ++ (endMarker nm ++ "\n") ++ "\n" })
    ∧ (ls ≠ [] → joinNl ls = sepNl ls ++ "\n") := by
  have hword := (findNamed_word _ _ nm hb2).1
  refine ⟨?_, ?_, fun hne => ?_⟩
  · rw [capture_named_region _ nm ls hb1 hb2 he1 he2 he3 he4 hls]
    simp [define_section, UserSectionManager.new, alInsert]
  · rw [write_section_emits _ nm ⟨nm, none, none, false⟩ ls CodeWriter.new
      (by simp [define_section, UserSectionManager.new, alInsert, alGet]) rfl
      (by simp [define_section, UserSectionManager.new])
      (by simp [alGet]) hclean hword rfl]
    simp [define_section, UserSectionManager.new, CodeWriter.new, strEmptyAppend]
  · cases ls with
    | nil => exact absurd rfl hne
    | cons l ls2 => exact joinNl_eq_sepNl ls2 l

/-- Witness for C1 (amended) at the region name `A` with the single
content line `int x = 0;`. -/
theorem c1_edit_preservation_witness :
    capture_from_lines (define_section UserSectionManager.new "A")
        (beginMarker "A" :: ["int x = 0;"] ++ [endMarker "A"])
      = ({ define_section UserSectionManager.new "A" with
             capturedContent := [("A", joinNl ["int x = 0;"])] }, none)
    ∧ write_section { define_section UserSectionManager.new "A" with
          capturedContent := [("A", joinNl ["int x = 0;"])] } CodeWriter.new "A"
        = .ok ({ define_section UserSectionManager.new "A" with
              capturedContent := [("A", joinNl ["int x = 0;"])], writtenSections := ["A"] },
            { CodeWriter.new with
              out := (beginMarker "A" ++ "\n") ++ sepNl ["int x = 0;"]
                ++ (endMarker "A" ++ "\n") ++ "\n" })
    ∧ (["int x = 0;"] ≠ ([] : List String) →
        joinNl ["int x = 0;"] = sepNl ["int x = 0;"] ++ "\n") :=
  c1_edit_preservation "A" ["int x = 0;"] (by decide) (by decide) (by decide) (by decide)
    (by decide) (by decide) (by decide) (by decide)

end CCodegen

namespace CCodegen

/-- C4 (amended): a second `write_section` call for an already-written
section writes no begin/end markers and no content and leaves the manager
(including the written tracker) unchanged — but it is not a complete
no-op: when the section has a description, the description separator line
is re-emitted, because `write_section` writes the separator before
consulting the written tracker.  Consequently the pass output still
contains exactly one pair of markers, with a duplicated separator line. -/
theorem c4_second_emission_skips_markers (m : UserSectionManager) (w : CodeWriter)
    (nm : String) (sec : UserSection)
    (hsec : alGet m.sections nm = some sec)
    (hwr : m.writtenSections.contains nm = true) :
    write_section m w nm
      = .ok (m, match sec.description with
          | some d => w.write_separator d 80
          | none => w) := by
  unfold write_section
  rw [hsec]
  cases hd : sec.description with
  | none =>
    simp only [hd]
    rw [if_pos hwr]
  | some d =>
    simp only [hd]
    rw [if_pos hwr]

/-- Witness for C4 (amended): section `X` with description `d`, already
in the written tracker. -/
theorem c4_second_emission_skips_markers_witness :
    write_section
        { define_section_with_description UserSectionManager.new "X" "d" with
            writtenSections := ["X"] }
        CodeWriter.new "X"
      = .ok ({ define_section_with_description UserSectionManager.new "X" "d" with
            writtenSections := ["X"] },
          CodeWriter.new.write_separator "d" 80) :=
  c4_second_emission_skips_markers _ CodeWriter.new "X" ⟨"X", some "d", none, false⟩
    (by decide) (by decide)

/-- C7 (amended): both nesting violations fail with `NestedSection`
carrying the current 1-based line number, but the reported identity
differs by marker kind: a partial-begin while a region is open names the
NEW marker (`partial section {digits}`), while a named-begin while a
region is open names the currently-open region (`openLabel`). -/
theorem c7_nesting_diagnostics :
    (∀ (st : ScanState) (l ds : String), matchPartialBegin l = some ds →
        (st.curSec.isSome || st.curPar.isSome) = true →
        scanLine st l = .fail st.m (.NestedSection (st.lineNo + 1) ("partial section " ++ ds)))
    ∧ (∀ (st : ScanState) (l nm : String), matchPartialBegin l = none →
        matchBegin l = some nm →
        (st.curSec.isSome || st.curPar.isSome) = true →
        scanLine st l = .fail st.m (.NestedSection (st.lineNo + 1) (openLabel st))) := by
  constructor
  · intro st l ds h1 h2
    simp [scanLine, h1, h2]
  · intro st l nm h1 h2 h3
    simp [scanLine, h1, h2, h3]

/-- Witness for C7 (amended): the second line of the claim's example,
scanned while partial region 1 is open. -/
theorem c7_nesting_diagnostics_witness :
    scanLine ⟨UserSectionManager.new, none, some 1, "", 1⟩ "//!begin 2"
      = .fail UserSectionManager.new (.NestedSection 2 "partial section 2") :=
  c7_nesting_diagnostics.1 ⟨UserSectionManager.new, none, some 1, "", 1⟩
    "//!begin 2" "2" (by decide) (by decide)

end CCodegen

namespace CCodegen

/-- Insertion never removes a key from an association list. -/
theorem alGet_alInsert_isSome {α β : Type} [DecidableEq α] (l : List (α × β))
    (k k2 : α) (v : β) (h : (alGet l k).isSome = true) :
    (alGet (alInsert l k2 v) k).isSome = true := by
  induction l with
  | nil => simp [alGet] at h
  | cons p rest ih =>
    obtain ⟨a, b⟩ := p
    by_cases hak : a = k
    · subst hak
      by_cases hak2 : a = k2
      · subst hak2
        simp [alInsert, alGet]
      · simp [alInsert, alGet, hak2]
    · by_cases hak2 : a = k2
      · subst hak2
        simp only [alGet, if_neg hak] at h
        have hk2 : a ≠ k := hak
        simp [alInsert, alGet, hk2]
        exact h
      · simp only [alGet, if_neg hak] at h
        simp [alInsert, alGet, hak, hak2]
        exact ih h

/-- `keysPreserved` is reflexive. -/
theorem keysPreserved_refl (m : UserSectionManager) : keysPreserved m m :=
  ⟨fun _ h => h, fun _ h => h⟩

/-- `keysPreserved` is transitive. -/
theorem keysPreserved_trans {a b c : UserSectionManager}
    (h1 : keysPreserved a b) (h2 : keysPreserved b c) : keysPreserved a c :=
  ⟨fun k h => h2.1 k (h1.1 k h), fun n h => h2.2 n (h1.2 n h)⟩

/-- One scanner step only ever inserts into the two capture maps. -/
theorem scanLine_keysPreserved (st : ScanState) (l : String) :
    keysPreserved st.m (scanOutM (scanLine st l)) := by
  unfold scanLine
  dsimp only
  repeat' split
  all_goals first
    | exact keysPreserved_refl _
    | exact ⟨fun k h => h, fun n h => alGet_alInsert_isSome _ _ _ _ h⟩
    | exact ⟨fun k h => alGet_alInsert_isSome _ _ _ _ h, fun n h => h⟩

/-- The scanner loop only ever inserts into the two capture maps. -/
theorem scanLines_keysPreserved (ls : List String) (st : ScanState) :
    keysPreserved st.m (scanOutM (scanLines st ls)) := by
  induction ls generalizing st with
  | nil => exact keysPreserved_refl _
  | cons l ls ih =>
    have h1 := scanLine_keysPreserved st l
    rw [scanLines]
    cases hsl : scanLine st l with
    | cont st2 =>
      rw [hsl] at h1
      exact keysPreserved_trans h1 (ih st2)
    | fail m2 e =>
      rw [hsl] at h1
      exact h1

/-- The end-of-input check returns the manager unchanged. -/
theorem scanFinish_fst (st : ScanState) : (scanFinish st).1 = st.m := by
  unfold scanFinish
  cases st.curSec with
  | some s => rfl
  | none =>
    cases st.curPar with
    | some n => rfl
    | none => rfl

/-- C5 (amended): an erroring scan is not rolled back.  If scanning a
prefix of the input succeeds, then scanning the full input — even when it
returns an error — keeps every captured-content key and every
partial-section key that the successful prefix had committed. -/
theorem c5_error_preserves_closed_regions (m : UserSectionManager)
    (ls1 ls2 : List String) (e : CodeGenError)
    (h1 : (capture_from_lines m ls1).2 = none)
    (_h2 : (capture_from_lines m (ls1 ++ ls2)).2 = some e) :
    (∀ k : String,
        (alGet (capture_from_lines m ls1).1.capturedContent k).isSome = true →
        (alGet (capture_from_lines m (ls1 ++ ls2)).1.capturedContent k).isSome = true)
    ∧ (∀ n : Nat,
        (alGet (capture_from_lines m ls1).1.partialSections n).isSome = true →
        (alGet (capture_from_lines m (ls1 ++ ls2)).1.partialSections n).isSome = true) := by
  unfold capture_from_lines at h1 ⊢
  cases hs1 : scanLines ⟨m, none, none, "", 0⟩ ls1 with
  | fail m2 e2 =>
    rw [hs1] at h1
    simp at h1
  | cont st1 =>
    rw [hs1] at h1
    simp only [scanLines_append, hs1]
    have hmono := scanLines_keysPreserved ls2 st1
    cases hs2 : scanLines st1 ls2 with
    | fail m3 e3 =>
      rw [hs2] at hmono
      simp only [hs2, scanFinish_fst]
      exact ⟨fun k h => hmono.1 k h, fun n h => hmono.2 n h⟩
    | cont st2 =>
      rw [hs2] at hmono
      simp only [hs2, scanFinish_fst]
      exact ⟨fun k h => hmono.1 k h, fun n h => hmono.2 n h⟩

/-- Witness for C5 (amended): region `A` closes successfully in the
prefix; the continuation adds an orphan end marker for `B`, the scan
errors, and the key `A` is still present. -/
theorem c5_error_preserves_closed_regions_witness :
    (∀ k : String,
        (alGet (capture_from_lines UserSectionManager.new
            ["/* USER CODE BEGIN A */", "x", "/* USER CODE END A */"]).1.capturedContent
            k).isSome = true →
        (alGet (capture_from_lines UserSectionManager.new
            (["/* USER CODE BEGIN A */", "x", "/* USER CODE END A */"]
              ++ ["/* USER CODE END B */"])).1.capturedContent k).isSome = true)
    ∧ (∀ n : Nat,
        (alGet (capture_from_lines UserSectionManager.new
            ["/* USER CODE BEGIN A */", "x", "/* USER CODE END A */"]).1.partialSections
            n).isSome = true →
        (alGet (capture_from_lines UserSectionManager.new
            (["/* USER CODE BEGIN A */", "x", "/* USER CODE END A */"]
              ++ ["/* USER CODE END B */"])).1.partialSections n).isSome = true) :=
  c5_error_preserves_closed_regions UserSectionManager.new
    ["/* USER CODE BEGIN A */", "x", "/* USER CODE END A */"]
    ["/* USER CODE END B */"] (.InvalidSection (invalidEndMsg 4 "B"))
    (by decide) (by decide)

end CCodegen

namespace CCodegen

/-- Consuming a literal from a string that starts with it leaves the
rest. -/
theorem dropLit_self (xs ys : List Char) : dropLit xs (xs ++ ys) = some ys := by
  induction xs with
  | nil => rfl
  | cons c cs ih => simp [dropLit, ih]

/-- `takeWhile`/`dropWhile` on a block satisfying the predicate followed
by a failing element. -/
theorem takeWhile_all_stop (p : Char → Bool) (xs : List Char) (y : Char) (ys : List Char)
    (hall : ∀ c ∈ xs, p c = true) (hy : p y = false) :
    (xs ++ y :: ys).takeWhile p = xs ∧ (xs ++ y :: ys).dropWhile p = y :: ys := by
  induction xs with
  | nil =>
    have hny : ¬p y = true := by simp [hy]
    constructor
    · simp [List.takeWhile_cons_of_neg hny]
    · simp [List.dropWhile_cons_of_neg hny]
  | cons c cs ih =>
    have hc := hall c (by simp)
    have hrest : ∀ x ∈ cs, p x = true := fun x hx => hall x (by simp [hx])
    obtain ⟨h1, h2⟩ := ih hrest
    constructor
    · simp only [List.cons_append, List.takeWhile_cons_of_pos hc, h1]
    · simp only [List.cons_append, List.dropWhile_cons_of_pos hc, h2]

/-- The named-marker matcher succeeds (capturing exactly the name) on any
suffix that starts with the literal, the word-character name, and the
closing ` */`. -/
theorem namedMarkerAt_succeeds (lit : List Char) (nm post : String)
    (hword : ∀ c ∈ nm.data, isWordChar c = true) (hne : nm.data ≠ []) :
    namedMarkerAt lit (lit ++ (nm.data ++ (' ' :: '*' :: '/' :: post.data))) = some nm := by
  have hie : (nm.data).isEmpty = false := by
    cases hd : nm.data with
    | nil => exact absurd hd hne
    | cons a l => rfl
  obtain ⟨ht, hd⟩ := takeWhile_all_stop isWordChar nm.data ' ' ('*' :: '/' :: post.data)
    hword (by decide)
  unfold namedMarkerAt
  rw [dropLit_self]
  simp only [ht, hd, hie, Bool.false_eq_true, if_false, dropLit, if_pos rfl]
  simp [strMkData]

/-- A successful match at some position makes the leftmost search
succeed. -/
theorem findNamedMarker_isSome (lit xs ys : List Char) (t : String)
    (hlit : lit ≠ []) (h : namedMarkerAt lit ys = some t) :
    (findNamedMarker lit (xs ++ ys)).isSome = true := by
  induction xs with
  | nil =>
    cases ys with
    | nil =>
      exfalso
      cases lit with
      | nil => exact hlit rfl
      | cons p ps => simp [namedMarkerAt, dropLit] at h
    | cons c cs => simp [findNamedMarker, h]
  | cons x xs ih =>
    cases hm : namedMarkerAt lit (x :: (xs ++ ys)) with
    | some t2 => simp [findNamedMarker, hm]
    | none => simpa [findNamedMarker, hm] using ih

/-- A decimal digit is not regex whitespace. -/
theorem digit_not_space (c : Char) (h : isDigitChar c = true) : isSpaceChar c = false := by
  have hne : ∀ d : Char, isDigitChar d = false → (c == d) = false := by
    intro d hd
    cases hb : c == d
    · rfl
    · exact absurd (eq_of_beq hb ▸ h) (by simp [hd])
  unfold isSpaceChar
  rw [hne ' ' (by decide), hne '\t' (by decide), hne '\n' (by decide),
    hne '\r' (by decide), hne (Char.ofNat 11) (by decide), hne (Char.ofNat 12) (by decide)]
  rfl

/-- The partial-marker matcher succeeds on any suffix that starts with
the literal, one space, and a digit run. -/
theorem partialMarkerAt_isSome (lit : List Char) (ds post : String)
    (hdig : ∀ c ∈ ds.data, isDigitChar c = true) (hne : ds.data ≠ []) :
    (partialMarkerAt lit (lit ++ (' ' :: (ds.data ++ post.data)))).isSome = true := by
  obtain ⟨d, rest, hds⟩ : ∃ d rest, ds.data = d :: rest := by
    cases hd : ds.data with
    | nil => exact absurd hd hne
    | cons a l => exact ⟨a, l, rfl⟩
  have hd1 : isDigitChar d = true := hdig d (by rw [hds]; simp)
  unfold partialMarkerAt
  rw [dropLit_self]
  simp only [hds, List.cons_append,
    List.takeWhile_cons_of_pos (show isSpaceChar ' ' = true by decide),
    List.dropWhile_cons_of_pos (show isSpaceChar ' ' = true by decide),
    List.dropWhile_cons_of_neg (show ¬isSpaceChar d = true by simp [digit_not_space d hd1]),
    List.takeWhile_cons_of_pos hd1]
  simp

/-- A successful partial match at some position makes the leftmost search
succeed. -/
theorem findPartialMarker_isSome (lit xs ys : List Char)
    (hlit : lit ≠ []) (h : (partialMarkerAt lit ys).isSome = true) :
    (findPartialMarker lit (xs ++ ys)).isSome = true := by
  induction xs with
  | nil =>
    cases ys with
    | nil =>
      exfalso
      cases lit with
      | nil => exact hlit rfl
      | cons p ps => simp [partialMarkerAt, dropLit] at h
    | cons c cs =>
      cases hm : partialMarkerAt lit (c :: cs) with
      | some t => simp [findPartialMarker, hm]
      | none => rw [hm] at h; simp at h
  | cons x xs ih =>
    cases hm : partialMarkerAt lit (x :: (xs ++ ys)) with
    | some t2 => simp [findPartialMarker, hm]
    | none => simpa [findPartialMarker, hm] using ih

end CCodegen

namespace CCodegen

/-- C6 (amended): marker recognition is NOT line-exact.  (1) Any line
that contains the begin marker anywhere — with arbitrary text before and
after it — is recognized as a begin-marker line (the patterns are
unanchored); (2) likewise for the partial begin marker; (3) the verbatim
part of the claim stands: lines between the markers on which no pattern
matches are captured exactly, each newline-terminated, blank lines
included, marker lines excluded. -/
theorem c6_marker_recognition :
    (∀ pre post nm : String, nm.data ≠ [] → (∀ c ∈ nm.data, isWordChar c = true) →
        (matchBegin (pre ++ (beginMarker nm ++ post))).isSome = true)
    ∧ (∀ pre post ds : String, ds.data ≠ [] → (∀ c ∈ ds.data, isDigitChar c = true) →
        (matchPartialBegin (pre ++ (("//!begin " ++ ds) ++ post))).isSome = true)
    ∧ (∀ (m : UserSectionManager) (nm : String) (ls : List String),
        matchPartialBegin (beginMarker nm) = none → matchBegin (beginMarker nm) = some nm →
        matchPartialBegin (endMarker nm) = none → matchBegin (endMarker nm) = none →
        matchPartialEnd (endMarker nm) = none → matchEnd (endMarker nm) = some nm →
        (∀ l ∈ ls, noMarkerLine l) →
        capture_from_lines m (beginMarker nm :: ls ++ [endMarker nm])
          = ({ m with capturedContent := alInsert m.capturedContent nm (joinNl ls) },
             none)) := by
  refine ⟨?_, ?_, ?_⟩
  · intro pre post nm hne hword
    unfold matchBegin
    have hshape : (pre ++ (beginMarker nm ++ post)).data
        = pre.data ++ ("/* USER CODE BEGIN ".data
            ++ (nm.data ++ (' ' :: '*' :: '/' :: post.data))) := by
      simp only [beginMarker, String.data_append, List.append_assoc]
      rfl
    rw [hshape]
    exact findNamedMarker_isSome _ _ _ nm (by decide)
      (namedMarkerAt_succeeds _ nm post hword hne)
  · intro pre post ds hne hdig
    unfold matchPartialBegin
    have hshape : (pre ++ (("//!begin " ++ ds) ++ post)).data
        = pre.data ++ ("//!begin".data ++ (' ' :: (ds.data ++ post.data))) := by
      simp only [String.data_append, List.append_assoc]
      rfl
    rw [hshape]
    exact findPartialMarker_isSome _ _ _ (by decide)
      (partialMarkerAt_isSome _ ds post hdig hne)
  · intro m nm ls hb1 hb2 he1 he2 he3 he4 hls
    exact capture_named_region m nm ls hb1 hb2 he1 he2 he3 he4 hls

/-- Witness for C6 (amended): the begin marker for `A` embedded in the
middle of a line, and the partial begin marker for `7` embedded in the
middle of a line, are both recognized. -/
theorem c6_marker_recognition_witness :
    (matchBegin ("int x; " ++ (beginMarker "A" ++ " tail"))).isSome = true
    ∧ (matchPartialBegin ("code(); " ++ (("//!begin " ++ "7") ++ " tail"))).isSome = true :=
  ⟨c6_marker_recognition.1 "int x; " " tail" "A" (by decide) (by decide),
   c6_marker_recognition.2.1 "code(); " " tail" "7" (by decide) (by decide)⟩

end CCodegen

namespace CCodegen

/-- C8 (amended): the mid-scan errors all locate the violation at the
current 1-based line, but in different ways: `NestedSection` and
`MismatchedSection` carry it as a structured `line` field, while
`InvalidSection` only embeds it in its message text.  The end-of-input
`UnclosedSection` error names the still-open region (named name, or
`partial section {id}`) and carries no line number at all. -/
theorem c8_error_line_numbers :
    (∀ (st : ScanState) (l : String) (m2 : UserSectionManager) (e : CodeGenError),
        scanLine st l = .fail m2 e →
        e.lineField = some (st.lineNo + 1)
        ∨ ∃ a b, e = .InvalidSection (a ++ Nat.repr (st.lineNo + 1) ++ b))
    ∧ (∀ (st : ScanState) (nm : String), st.curSec = some nm →
        scanFinish st = (st.m, some (.UnclosedSection nm)))
    ∧ (∀ (st : ScanState) (n : Nat), st.curSec = none → st.curPar = some n →
        scanFinish st = (st.m, some (.UnclosedSection ("partial section " ++ Nat.repr n))))
    ∧ (∀ s : String, (CodeGenError.UnclosedSection s).lineField = none) := by
  refine ⟨?_, ?_, ?_, fun s => rfl⟩
  · intro st l m2 e h
    unfold scanLine at h
    dsimp only at h
    repeat' split at h
    all_goals cases h
    all_goals first
      | (left; rfl)
      | (right; exact ⟨"Unexpected partial section end at line ", _, rfl⟩)
      | (right; exact ⟨"Unexpected user section end at line ", _, rfl⟩)
  · intro st nm h
    unfold scanFinish
    rw [h]
  · intro st n h1 h2
    unfold scanFinish
    rw [h1, h2]

/-- Witness for C8 (amended): a mismatched partial end at scanner state
line 2, and an unclosed partial region at end of input. -/
theorem c8_error_line_numbers_witness :
    ((CodeGenError.MismatchedSection 3 "1" "2").lineField
        = some ((⟨UserSectionManager.new, none, some 1, "", 2⟩ : ScanState).lineNo + 1)
      ∨ ∃ a b, CodeGenError.MismatchedSection 3 "1" "2"
          = .InvalidSection (a ++ Nat.repr ((⟨UserSectionManager.new, none, some 1, "", 2⟩ :
              ScanState).lineNo + 1) ++ b))
    ∧ scanFinish ⟨UserSectionManager.new, none, some 1, "", 2⟩
        = (UserSectionManager.new, some (.UnclosedSection ("partial section " ++ Nat.repr 1))) :=
  ⟨c8_error_line_numbers.1 ⟨UserSectionManager.new, none, some 1, "", 2⟩ "//!end 2"
      UserSectionManager.new (.MismatchedSection 3 "1" "2") (by decide),
   c8_error_line_numbers.2.2.1 ⟨UserSectionManager.new, none, some 1, "", 2⟩ 1 rfl rfl⟩

end CCodegen

namespace CCodegen

/-- `CodeWriter::write` only appends to the output buffer and leaves the
other writer fields unchanged. -/
theorem write_out_extends (w : CodeWriter) (c : String) :
    ∃ y, w.write c = { w with out := w.out ++ y } := by
  simp only [CodeWriter.write]
  by_cases h : c.data.isEmpty = true
  · rw [if_pos h]
    by_cases hn : w.withNewline = true
    · exact ⟨"\n", by rw [if_pos hn]⟩
    · refine ⟨"", ?_⟩
      rw [if_neg hn]
      simp [String.append_empty]
  · rw [if_neg h]
    by_cases hn : (w.withNewline && !endsWithNl c) = true
    · refine ⟨renderLines (repeat_str " " (w.indentLevel * w.indentSize)) (rustLines c)
        ++ "\n", ?_⟩
      rw [if_pos hn]
      simp [String.append_assoc]
    · exact ⟨renderLines (repeat_str " " (w.indentLevel * w.indentSize)) (rustLines c),
        by rw [if_neg hn]⟩

/-- Emission shape of `write_section_without_description`: for a defined
word-character name and a zero-indentation writer, it always appends a
full begin marker line, some content bytes, the end marker line and a
blank line, and echoes the manager unchanged. -/
theorem wswd_shape (m : UserSectionManager) (w : CodeWriter) (nm : String)
    (sec : UserSection) (hsec : alGet m.sections nm = some sec)
    (hw : w.indentLevel = 0) (hword : ∀ c ∈ nm.data, isWordChar c = true) :
    ∃ body, write_section_without_description m w nm
      = .ok (m, { w with out := w.out ++ (beginMarker nm ++ "\n") ++ body
          ++ (endMarker nm ++ "\n") ++ "\n" }) := by
  have hbm1 : '\n' ∉ (beginMarker nm).data := by
    unfold beginMarker
    exact marker_noNl "/* USER CODE BEGIN " " */" nm (by decide) (by decide) hword
  have hbm2 : (beginMarker nm).data ≠ [] := by
    unfold beginMarker
    exact ne_nil_of_getLast _ '/' (marker_last _ " */" '/' (by decide))
  have hbm3 : endsWithNl (beginMarker nm) = false := endsWithNl_starSlash _
  have hem1 : '\n' ∉ (endMarker nm).data := by
    unfold endMarker
    exact marker_noNl "/* USER CODE END " " */" nm (by decide) (by decide) hword
  have hem2 : (endMarker nm).data ≠ [] := by
    unfold endMarker
    exact ne_nil_of_getLast _ '/' (marker_last _ " */" '/' (by decide))
  have hem3 : endsWithNl (endMarker nm) = false := endsWithNl_starSlash _
  simp only [write_section_without_description, hsec]
  rw [show ("/* USER CODE BEGIN " ++ nm ++ " */" : String) = beginMarker nm from rfl]
  rw [show ("/* USER CODE END " ++ nm ++ " */" : String) = endMarker nm from rfl]
  rw [writeln_single w (beginMarker nm) hbm1 hbm2 hbm3 hw]
  by_cases hc : ((get_section_content m nm).getD "").data.isEmpty = true
  · rw [if_pos hc]
    rw [writeln_single _ (endMarker nm) hem1 hem2 hem3 (by simp [hw])]
    refine ⟨"", ?_⟩
    simp [CodeWriter.newline, String.append_assoc, String.append_empty]
  · rw [if_neg hc]
    obtain ⟨y, hy⟩ := write_out_extends
      { w with out := w.out ++ beginMarker nm ++ "\n" } ((get_section_content m nm).getD "")
    rw [hy]
    by_cases he : (!endsWithNl ((get_section_content m nm).getD "")) = true
    · rw [if_pos he]
      rw [writeln_single _ (endMarker nm) hem1 hem2 hem3 (by simp [CodeWriter.newline, hw])]
      refine ⟨y ++ "\n", ?_⟩
      simp [CodeWriter.newline, String.append_assoc]
    · rw [if_neg he]
      rw [writeln_single _ (endMarker nm) hem1 hem2 hem3 (by simp [hw])]
      refine ⟨y, ?_⟩
      simp [CodeWriter.newline, String.append_assoc]

/-- C10: `write_section_without_description` neither consults nor updates
the written tracker.  For any defined name it succeeds, always writes a
full begin/end marker pair with the resolved content between, returns the
manager unchanged (tracker untouched), and produces the same writer for
every value of the tracker. -/
theorem c10_variant_ignores_tracker (m : UserSectionManager) (w : CodeWriter)
    (nm : String) (sec : UserSection) (t : List String)
    (hsec : alGet m.sections nm = some sec)
    (hw : w.indentLevel = 0) (hword : ∀ c ∈ nm.data, isWordChar c = true) :
    ∃ w2, write_section_without_description m w nm = .ok (m, w2)
      ∧ write_section_without_description { m with writtenSections := t } w nm
          = .ok ({ m with writtenSections := t }, w2)
      ∧ ∃ body, w2.out = w.out ++ (beginMarker nm ++ "\n") ++ body
          ++ (endMarker nm ++ "\n") ++ "\n" := by
  obtain ⟨body, hshape⟩ := wswd_shape m w nm sec hsec hw hword
  have hsame : write_section_without_description { m with writtenSections := t } w nm
      = match write_section_without_description m w nm with
        | .ok (_, w2) => .ok ({ m with writtenSections := t }, w2)
        | .error e => .error e := by
    simp only [write_section_without_description, hsec]
    rfl
  refine ⟨{ w with out := w.out ++ (beginMarker nm ++ "\n") ++ body
      ++ (endMarker nm ++ "\n") ++ "\n" }, hshape, ?_, ⟨body, rfl⟩⟩
  rw [hsame, hshape]

end CCodegen

namespace CCodegen

/-- Witness for C10 at section `A`, with the tracker already containing
`A`: the variant still succeeds, emits a full marker pair, and returns
the manager unchanged. -/
theorem c10_variant_ignores_tracker_witness :
    ∃ w2, write_section_without_description (define_section UserSectionManager.new "A")
        CodeWriter.new "A" = .ok (define_section UserSectionManager.new "A", w2)
      ∧ write_section_without_description
          { define_section UserSectionManager.new "A" with writtenSections := ["A"] }
          CodeWriter.new "A"
          = .ok ({ define_section UserSectionManager.new "A" with
              writtenSections := ["A"] }, w2)
      ∧ ∃ body, w2.out = CodeWriter.new.out ++ (beginMarker "A" ++ "\n") ++ body
          ++ (endMarker "A" ++ "\n") ++ "\n" :=
  c10_variant_ignores_tracker (define_section UserSectionManager.new "A") CodeWriter.new
    "A" ⟨"A", none, none, false⟩ ["A"] (by decide) rfl (by decide)

end CCodegen
